import Mathlib

/-!
Verification of the Stavkinasport betting engine core against its
natural-language specification.

The development shallowly embeds the Python sources:
* `src/core/value_engine.py` (overround removal, value analysis,
  correlation discount),
* `src/Stavki3/bankroll.py` (Kelly sizing, stop-loss state machine),
* `src/Stavki3/prediction_models.py` (Dixon-Coles score model),
* `src/config/settings.py` (the active configuration constants),
* `src/Stavki3/models.py` (domain dataclasses; the layout of the
  `core.models` module imported by the engine).

Python floats are embedded as exact rationals (reals where the code
takes square roots, powers or exponentials); Python `round(x, n)` is
round-half-to-even on rationals; `dict` values are association lists.
-/

namespace Stavki

/-- Sum of the values of a rational association list (Python
`sum(d.values())`). -/
def vsum (l : List (String × ℚ)) : ℚ :=
  (l.map Prod.snd).sum

/-- Sum of the values of a real association list. -/
noncomputable def vsumR (l : List (String × ℝ)) : ℝ :=
  (l.map Prod.snd).sum

/-- Round-half-to-even to an integer, the semantics of Python `round`. -/
def roundEven (q : ℚ) : ℤ :=
  if q - (⌊q⌋ : ℚ) < 1/2 then ⌊q⌋
  else if 1/2 < q - (⌊q⌋ : ℚ) then ⌊q⌋ + 1
  else if ⌊q⌋ % 2 = 0 then ⌊q⌋ else ⌊q⌋ + 1

/-- Python `round(x, 2)` on exact rationals. -/
def round2 (q : ℚ) : ℚ := (roundEven (q * 100) : ℚ) / 100

/-- Python `round(x, 4)` on exact rationals. -/
def round4 (q : ℚ) : ℚ := (roundEven (q * 10000) : ℚ) / 10000

theorem roundEven_le (q : ℚ) : (roundEven q : ℚ) ≤ q + 1/2 := by
  unfold roundEven
  have hf : (⌊q⌋ : ℚ) ≤ q := Int.floor_le q
  split_ifs with h1 h2 h3 <;> push_cast <;> linarith

theorem le_roundEven (q : ℚ) : q - 1/2 ≤ (roundEven q : ℚ) := by
  unfold roundEven
  have hf : q < (⌊q⌋ : ℚ) + 1 := Int.lt_floor_add_one q
  split_ifs with h1 h2 h3 <;> push_cast <;> linarith

theorem round2_le (q : ℚ) : round2 q ≤ q + 1/200 := by
  unfold round2
  have h := roundEven_le (q * 100)
  have : (roundEven (q * 100) : ℚ) / 100 ≤ (q * 100 + 1/2) / 100 := by
    apply div_le_div_of_nonneg_right h (by norm_num) |>.trans_eq rfl
  calc (roundEven (q * 100) : ℚ) / 100 ≤ (q * 100 + 1/2) / 100 := this
    _ = q + 1/200 := by ring

theorem le_round2 (q : ℚ) : q - 1/200 ≤ round2 q := by
  unfold round2
  have h := le_roundEven (q * 100)
  calc q - 1/200 = (q * 100 - 1/2) / 100 := by ring
    _ ≤ (roundEven (q * 100) : ℚ) / 100 :=
        div_le_div_of_nonneg_right h (by norm_num)

/-- A half-unit lower bound transfers through `round2` because the result
has an integer numerator of cents. -/
theorem round2_ge_half {q : ℚ} (h : 1/2 ≤ q) : 1/2 ≤ round2 q := by
  unfold round2
  have h50 : (50 : ℚ) ≤ q * 100 := by linarith
  have h1 : (49.5 : ℚ) ≤ (roundEven (q * 100) : ℚ) := by
    have := le_roundEven (q * 100)
    linarith
  have h2 : (50 : ℤ) ≤ roundEven (q * 100) := by
    by_contra hc
    push_neg at hc
    have h49 : roundEven (q * 100) ≤ 49 := by omega
    have : (roundEven (q * 100) : ℚ) ≤ 49 := by exact_mod_cast h49
    linarith
  have : (50 : ℚ) ≤ (roundEven (q * 100) : ℚ) := by exact_mod_cast h2
  linarith

/-- Values of a rational association list, cast to the reals. -/
def castVals (l : List (String × ℚ)) : List (String × ℝ) :=
  l.map (fun kv => (kv.1, (kv.2 : ℝ)))

/-!
## Overround removal (`src/core/value_engine.py`, lines 46-151)
-/

/-- The comprehension `{k: 1.0 / v for k, v in odds.items() if v > 0}`
shared by all four overround-removal methods. -/
def implied_of (odds : List (String × ℚ)) : List (String × ℚ) :=
  (odds.filter (fun kv => 0 < kv.2)).map (fun kv => (kv.1, 1 / kv.2))

/-- `ValueBettingEngine.remove_overround_basic`. -/
def remove_overround_basic (odds : List (String × ℚ)) : List (String × ℚ) :=
  let implied := implied_of odds
  let total := vsum implied
  if total ≤ 0 then []
  else implied.map (fun kv => (kv.1, kv.2 / total))

/-- `ValueBettingEngine.remove_overround_multiplicative`. -/
def remove_overround_multiplicative (odds : List (String × ℚ)) :
    List (String × ℚ) :=
  let implied := implied_of odds
  let overround := vsum implied
  if overround ≤ 0 then []
  else implied.map (fun kv => (kv.1, kv.2 / overround))

/-- One iteration of the power method's binary search for the exponent
`k` with `sum(p ** k) = 1`; the `Bool` component models the loop's
early `break` once `abs(total - 1) < 1e-8`. -/
noncomputable def powerStep (ps : List ℝ) (s : ℝ × ℝ × Bool) : ℝ × ℝ × Bool :=
  if s.2.2 then s
  else
    let mid := (s.1 + s.2.1) / 2
    let total := (ps.map (fun p => p ^ mid)).sum
    let lohi : ℝ × ℝ := if 1 < total then (mid, s.2.1) else (s.1, mid)
    (lohi.1, lohi.2, decide (|total - 1| < 1e-8))

/-- The exponent produced by the 100-iteration binary search of
`remove_overround_power`, started from `lo, hi = 0.5, 2.0`. -/
noncomputable def powerK (ps : List ℝ) : ℝ :=
  let s := (powerStep ps)^[100] (1/2, 2, false)
  (s.1 + s.2.1) / 2

/-- `ValueBettingEngine.remove_overround_power` (real-valued because the
source raises probabilities to a real exponent). -/
noncomputable def remove_overround_power (odds : List (String × ℚ)) :
    List (String × ℝ) :=
  let implied := castVals (implied_of odds)
  if implied.isEmpty then []
  else
    let k := powerK (implied.map Prod.snd)
    let fair := implied.map (fun kv => (kv.1, kv.2 ^ k))
    let total := vsumR fair
    fair.map (fun kv => (kv.1, kv.2 / total))

/-- Shin's insider-fraction estimate `z = (overround - 1) / (n - 1)`,
where `n = len(odds)` and `overround` is the sum of implied
probabilities. -/
def shinZ (odds : List (String × ℚ)) : ℚ :=
  (vsum (implied_of odds) - 1) / ((odds.length : ℚ) - 1)

/-- The discriminant `z**2 + 4*(1-z)*(p**2)/overround` computed per
outcome inside `remove_overround_shin`. -/
def shinDisc (odds : List (String × ℚ)) (p : ℚ) : ℚ :=
  shinZ odds ^ 2 + 4 * (1 - shinZ odds) * p ^ 2 / vsum (implied_of odds)

/-- The per-outcome fair value of Shin's method:
`(sqrt(discriminant) - z) / (2*(1-z))`, with the source's fallback
`p / overround` when the discriminant is negative. -/
noncomputable def shinFairVal (odds : List (String × ℚ)) (p : ℚ) : ℝ :=
  if shinDisc odds p < 0 then ((p / vsum (implied_of odds) : ℚ) : ℝ)
  else (Real.sqrt ((shinDisc odds p : ℚ) : ℝ) - (shinZ odds : ℝ)) /
    (2 * (1 - (shinZ odds : ℝ)))

/-- The un-normalized `fair` dictionary of `remove_overround_shin`. -/
noncomputable def shinFair (odds : List (String × ℚ)) : List (String × ℝ) :=
  (implied_of odds).map (fun kv => (kv.1, shinFairVal odds kv.2))

/-- `ValueBettingEngine.remove_overround_shin` (real-valued because the
source takes a square root). In Lean division by zero yields `0`; the
Python source instead raises `ZeroDivisionError` when `z = 1`. -/
noncomputable def remove_overround_shin (odds : List (String × ℚ)) :
    List (String × ℝ) :=
  if odds.length < 2 then castVals (remove_overround_basic odds)
  else if vsum (implied_of odds) ≤ 1 then castVals (implied_of odds)
  else
    let total := vsumR (shinFair odds)
    if 0 < total then (shinFair odds).map (fun kv => (kv.1, kv.2 / total))
    else shinFair odds

/-- `ValueBettingEngine.get_fair_probabilities`: method dispatch, with
Shin as the default for unknown method names. -/
noncomputable def get_fair_probabilities (odds : List (String × ℚ))
    (method : String) : List (String × ℝ) :=
  if method = "basic" then castVals (remove_overround_basic odds)
  else if method = "multiplicative" then
    castVals (remove_overround_multiplicative odds)
  else if method = "power" then remove_overround_power odds
  else remove_overround_shin odds

theorem vsum_map_div (l : List (String × ℚ)) (c : ℚ) :
    vsum (l.map (fun kv => (kv.1, kv.2 / c))) = vsum l / c := by
  induction l with
  | nil => simp [vsum]
  | cons a t ih =>
    simp only [vsum, List.map_cons, List.sum_cons] at *
    rw [ih]
    ring

theorem vsumR_map_div (l : List (String × ℝ)) (c : ℝ) :
    vsumR (l.map (fun kv => (kv.1, kv.2 / c))) = vsumR l / c := by
  induction l with
  | nil => simp [vsumR]
  | cons a t ih =>
    simp only [vsumR, List.map_cons, List.sum_cons] at *
    rw [ih]
    ring

theorem vsumR_pos {l : List (String × ℝ)} (hne : l ≠ [])
    (hpos : ∀ kv ∈ l, 0 < kv.2) : 0 < vsumR l := by
  induction l with
  | nil => cases hne rfl
  | cons a t ih =>
    simp only [vsumR, List.map_cons, List.sum_cons]
    have ha : 0 < a.2 := hpos a (List.mem_cons_self a t)
    rcases t with _ | ⟨b, t⟩
    · simpa [vsumR] using ha
    · have ht : 0 < vsumR (b :: t) := by
        apply ih (by simp)
        intro kv hkv
        exact hpos kv (List.mem_cons_of_mem a hkv)
      simp only [vsumR, List.map_cons, List.sum_cons] at ht ⊢
      linarith

theorem implied_of_pos (odds : List (String × ℚ)) :
    ∀ kv ∈ implied_of odds, 0 < kv.2 := by
  intro kv hkv
  simp only [implied_of, List.mem_map, List.mem_filter,
    decide_eq_true_eq] at hkv
  obtain ⟨a, ⟨_, hapos⟩, rfl⟩ := hkv
  exact one_div_pos.mpr hapos

theorem implied_of_length {odds : List (String × ℚ)}
    (h : ∀ kv ∈ odds, 0 < kv.2) :
    (implied_of odds).length = odds.length := by
  unfold implied_of
  rw [List.length_map, List.filter_eq_self.mpr]
  intro a ha
  simpa using h a ha

theorem castVals_pos {l : List (String × ℚ)} (h : ∀ kv ∈ l, 0 < kv.2) :
    ∀ kv ∈ castVals l, (0 : ℝ) < kv.2 := by
  intro kv hkv
  simp only [castVals, List.mem_map] at hkv
  obtain ⟨a, ha, rfl⟩ := hkv
  show (0 : ℝ) < (a.2 : ℝ)
  exact_mod_cast h a ha

theorem shinZ_pos {odds : List (String × ℚ)} (hlen : 2 ≤ odds.length)
    (hover : 1 < vsum (implied_of odds)) : 0 < shinZ odds := by
  unfold shinZ
  apply div_pos (by linarith)
  have : (2 : ℚ) ≤ (odds.length : ℚ) := by exact_mod_cast hlen
  linarith

theorem shinFairVal_pos {odds : List (String × ℚ)} {p : ℚ} (hp : 0 < p)
    (hlen : 2 ≤ odds.length) (hover : 1 < vsum (implied_of odds))
    (hz : shinZ odds ≠ 1) : 0 < shinFairVal odds p := by
  have hzpos : 0 < shinZ odds := shinZ_pos hlen hover
  have hov : (0 : ℚ) < vsum (implied_of odds) := by linarith
  set z := shinZ odds with hzdef
  set ov := vsum (implied_of odds) with hovdef
  have hdisc : shinDisc odds p = z ^ 2 + 4 * (1 - z) * p ^ 2 / ov := rfl
  rcases lt_trichotomy z 1 with h1 | h1 | h1
  · -- z < 1 : the discriminant exceeds z² and both quadratic pieces are
    -- positive.
    have hterm : 0 < 4 * (1 - z) * p ^ 2 / ov := by
      apply div_pos _ hov
      have : 0 < p ^ 2 := pow_pos hp 2
      nlinarith
    have hgt : z ^ 2 < shinDisc odds p := by rw [hdisc]; linarith
    have hnneg : ¬ shinDisc odds p < 0 := by nlinarith [sq_nonneg z]
    unfold shinFairVal
    rw [if_neg hnneg]
    apply div_pos
    · have hzR : (0 : ℝ) ≤ (z : ℝ) := by exact_mod_cast hzpos.le
      have hsq : ((z : ℝ)) ^ 2 < ((shinDisc odds p : ℚ) : ℝ) := by
        exact_mod_cast hgt
      have := Real.sqrt_lt_sqrt (sq_nonneg (z : ℝ)) hsq
      rw [Real.sqrt_sq hzR] at this
      linarith
    · have : (z : ℝ) < 1 := by exact_mod_cast h1
      linarith
  · exact absurd h1 hz
  · -- z > 1 : either the fallback `p / overround` fires, or the
    -- discriminant sits strictly below z² and both numerator and
    -- denominator of the closed form are negative.
    by_cases hd : shinDisc odds p < 0
    · unfold shinFairVal
      rw [if_pos hd]
      have : (0 : ℚ) < p / ov := div_pos hp hov
      exact_mod_cast this
    · push_neg at hd
      have hterm : 4 * (1 - z) * p ^ 2 / ov < 0 := by
        apply div_neg_of_neg_of_pos _ hov
        have : 0 < p ^ 2 := pow_pos hp 2
        nlinarith
      have hlt : shinDisc odds p < z ^ 2 := by rw [hdisc]; linarith
      unfold shinFairVal
      rw [if_neg (not_lt.mpr hd)]
      apply div_pos_of_neg_of_neg
      · have hzR : (0 : ℝ) ≤ (z : ℝ) := by exact_mod_cast hzpos.le
        have hsq : ((shinDisc odds p : ℚ) : ℝ) < ((z : ℝ)) ^ 2 := by
          exact_mod_cast hlt
        have hdR : (0 : ℝ) ≤ ((shinDisc odds p : ℚ) : ℝ) := by
          exact_mod_cast hd
        have := Real.sqrt_lt_sqrt hdR hsq
        rw [Real.sqrt_sq hzR] at this
        linarith
      · have : (1 : ℝ) < (z : ℝ) := by exact_mod_cast h1
        linarith

/-- C1 counterexample: the odds map `{"a": 1.0, "b": 1.0}` meets every
hypothesis of the claim (2 outcomes, positive prices, implied sum 2 > 1),
yet Shin's method does not return a distribution summing to 1: there
`z = (overround-1)/(n-1) = 1`, the denominator `2*(1-z)` vanishes, and
the Python source raises `ZeroDivisionError`; in the total-function
embedding every fair value is `0`, so the returned map sums to `0`. -/
theorem shin_unit_odds_counterexample :
    2 ≤ ([("a", 1), ("b", 1)] : List (String × ℚ)).length ∧
    (∀ kv ∈ ([("a", 1), ("b", 1)] : List (String × ℚ)), 0 < kv.2) ∧
    1 < vsum (implied_of [("a", 1), ("b", 1)]) ∧
    ¬ |vsumR (remove_overround_shin [("a", 1), ("b", 1)]) - 1| ≤ 1e-6 := by
  refine ⟨by simp, ?_, by norm_num [implied_of, vsum], ?_⟩
  · intro kv hkv
    fin_cases hkv <;> norm_num
  · have hz : shinZ [("a", 1), ("b", 1)] = 1 := by
      norm_num [shinZ, implied_of, vsum]
    have hfv : shinFairVal [("a", 1), ("b", 1)] 1 = 0 := by
      unfold shinFairVal
      rw [if_neg]
      · rw [hz]; norm_num
      · rw [shinDisc, hz]
        norm_num
    have hsum : vsumR (remove_overround_shin [("a", 1), ("b", 1)]) = 0 := by
      unfold remove_overround_shin
      rw [if_neg (by norm_num), if_neg (by norm_num [implied_of, vsum])]
      simp only [shinFair, implied_of]
      norm_num [vsumR, hfv]
    rw [hsum]
    norm_num

/-- C1 (amended): with at least two outcomes, strictly positive prices
and implied-probability sum above 1, the Basic, Multiplicative and Power
de-vig methods return probability maps summing to 1 within 1e-6, and so
does Shin's method provided the implied sum differs from the number of
outcomes (at equality its `z` parameter is 1 and the closed form divides
by zero). -/
theorem devig_sum_one (odds : List (String × ℚ))
    (hlen : 2 ≤ odds.length)
    (hpos : ∀ kv ∈ odds, 0 < kv.2)
    (hover : 1 < vsum (implied_of odds)) :
    |vsum (remove_overround_basic odds) - 1| ≤ 1e-6 ∧
    |vsum (remove_overround_multiplicative odds) - 1| ≤ 1e-6 ∧
    |vsumR (remove_overround_power odds) - 1| ≤ 1e-6 ∧
    (vsum (implied_of odds) ≠ (odds.length : ℚ) →
      |vsumR (remove_overround_shin odds) - 1| ≤ 1e-6) := by
  have htpos : (0 : ℚ) < vsum (implied_of odds) := by linarith
  have hne : implied_of odds ≠ [] := by
    intro h
    have := implied_of_length hpos
    rw [h] at this
    simp at this
    omega
  have hbasic : vsum (remove_overround_basic odds) = 1 := by
    unfold remove_overround_basic
    rw [if_neg (not_le.mpr htpos), vsum_map_div, div_self (ne_of_gt htpos)]
  refine ⟨by rw [hbasic]; norm_num, ?_, ?_, ?_⟩
  · have : vsum (remove_overround_multiplicative odds) = 1 := by
      unfold remove_overround_multiplicative
      rw [if_neg (not_le.mpr htpos), vsum_map_div, div_self (ne_of_gt htpos)]
    rw [this]; norm_num
  · -- the power method normalizes by the sum of positive powers
    have hiemp : (castVals (implied_of odds)).isEmpty = false := by
      rw [List.isEmpty_eq_false]
      simpa [castVals] using hne
    have : vsumR (remove_overround_power odds) = 1 := by
      simp only [remove_overround_power, hiemp, Bool.false_eq_true,
        if_false]
      rw [vsumR_map_div]
      apply div_self
      apply ne_of_gt
      apply vsumR_pos
      · simp [castVals, hne]
      · intro kv hkv
        simp only [List.mem_map] at hkv
        obtain ⟨a, ha, rfl⟩ := hkv
        exact Real.rpow_pos_of_pos
          (castVals_pos (implied_of_pos odds) a ha) _
    rw [this]; norm_num
  · intro hovn
    have hzne : shinZ odds ≠ 1 := by
      intro h
      apply hovn
      unfold shinZ at h
      have hden : ((odds.length : ℚ) - 1) ≠ 0 := by
        have : (2 : ℚ) ≤ (odds.length : ℚ) := by exact_mod_cast hlen
        intro hc
        linarith
      rw [div_eq_one_iff_eq hden] at h
      linarith
    have htot : 0 < vsumR (shinFair odds) := by
      apply vsumR_pos
      · simpa [shinFair] using hne
      · intro kv hkv
        simp only [shinFair, List.mem_map] at hkv
        obtain ⟨a, ha, rfl⟩ := hkv
        exact shinFairVal_pos (implied_of_pos odds a ha) hlen hover hzne
    have : vsumR (remove_overround_shin odds) = 1 := by
      unfold remove_overround_shin
      rw [if_neg (by omega), if_neg (not_le.mpr hover)]
      simp only [htot, if_true]
      rw [vsumR_map_div, div_self (ne_of_gt htot)]
    rw [this]; norm_num

/-- Witness for `devig_sum_one` at the odds map
`{"h": 3/2, "d": 7/2, "a": 7/2}`, whose implied sum is 26/21 > 1. -/
theorem devig_sum_one_witness :
    |vsumR (remove_overround_shin [("h", 3/2), ("d", 7/2), ("a", 7/2)]) - 1|
      ≤ 1e-6 := by
  have h := devig_sum_one [("h", 3/2), ("d", 7/2), ("a", 7/2)]
    (by simp)
    (by
      intro kv hkv
      fin_cases hkv <;> norm_num)
    (by norm_num [implied_of, vsum])
  exact h.2.2.2 (by norm_num [implied_of, vsum])

/-- C9: `remove_overround_basic` and `remove_overround_multiplicative`
are the same function — the Multiplicative method is a named alias of the
Basic equal-proportion normalization. -/
theorem basic_eq_multiplicative (odds : List (String × ℚ)) :
    remove_overround_basic odds = remove_overround_multiplicative odds :=
  rfl

/-!
## Domain models (`src/Stavki3/models.py`, the layout of `core.models`)

Structures carry exactly the fields read by the operations verified
here; fields never consulted by those operations (ids, captions,
timestamps of records) are omitted from the embedding.
-/

/-- `BetOutcome` enumeration. -/
inductive BetOutcome where
  | home | away | draw | over | under
deriving DecidableEq, Repr

/-- `ConfidenceLevel` enumeration. -/
inductive ConfidenceLevel where
  | low | medium | high
deriving DecidableEq, Repr

/-- `SignalStatus` enumeration (only `pending` is produced by the
embedded engine paths). -/
inductive SignalStatus where
  | pending | won | lost | voided | expired
deriving DecidableEq, Repr

/-- A `datetime` instant: calendar day number and seconds since
midnight. Days congruent to 0 mod 7 are Mondays (`weekday() == 0`). -/
structure PyTime where
  day : ℤ
  secs : ℚ
deriving DecidableEq, Repr

/-- `BookmakerOdds`: one bookmaker's quoted outcome→price map. -/
structure BookmakerOdds where
  bookmaker : String
  outcomes : List (String × ℚ)
deriving DecidableEq, Repr

/-- `Match`: fixture data read by the value engine. -/
structure Match where
  id : String
  league : String
  home_team : String
  away_team : String
  commence_time : PyTime
  bookmaker_odds : List BookmakerOdds
deriving DecidableEq, Repr

/-- `ValueSignal`: the fields produced and consumed by the engine and
the bankroll controller (`mtch` embeds the Python field `match`, a Lean
keyword). -/
structure ValueSignal where
  mtch : Option Match
  outcome : BetOutcome
  model_probability : ℚ
  bookmaker_odds : ℚ
  bookmaker_name : String
  edge : ℚ
  confidence_level : ConfidenceLevel
  model_count : ℕ
  sharp_agrees : Bool
  status : SignalStatus
deriving DecidableEq, Repr

/-- `ExpressLeg`: odds/probability/edge of one parlay leg. -/
structure ExpressLeg where
  odds : ℚ
  probability : ℚ
  edge : ℚ
deriving DecidableEq, Repr

/-- `ExpressBet`: a parlay with its correlation discount. -/
structure ExpressBet where
  legs : List ExpressLeg
  correlation_discount : ℚ
deriving DecidableEq, Repr

/-- `ExpressBet.total_odds`: product of leg odds. -/
def ExpressBet.total_odds (e : ExpressBet) : ℚ :=
  (e.legs.map ExpressLeg.odds).prod

/-- `ExpressBet.combined_probability`: product of leg probabilities. -/
def ExpressBet.combined_probability (e : ExpressBet) : ℚ :=
  (e.legs.map ExpressLeg.probability).prod

/-- `ExpressBet.adjusted_probability`: combined probability times the
correlation discount. -/
def ExpressBet.adjusted_probability (e : ExpressBet) : ℚ :=
  e.combined_probability * e.correlation_discount

/-- `SystemBet`: an M-of-N system bet. -/
structure SystemBet where
  legs : List ExpressLeg
  system_size : ℕ
  total_legs : ℕ
deriving DecidableEq, Repr

/-- `SystemBet.num_combinations = math.comb(total_legs, system_size)`. -/
def SystemBet.num_combinations (sys : SystemBet) : ℕ :=
  Nat.choose sys.total_legs sys.system_size

/-!
## Configuration (`src/config/settings.py`, `BettingConfig` defaults)
-/

/-- The configuration fields of `BettingConfig` read by the embedded
operations. -/
structure BettingConfig where
  MIN_VALUE_EDGE : ℚ
  MIN_CONFIRMED_EDGE : ℚ
  MAX_VALUE_EDGE : ℚ
  MIN_ODDS : ℚ
  MAX_ODDS : ℚ
  MIN_BOOKMAKERS : ℕ
  SHARP_BOOKMAKER : String
  EXPRESS_CORRELATION_DISCOUNT : ℚ
  EXPRESS_SAME_LEAGUE_PENALTY : ℚ
  EXPRESS_SAME_DAY_PENALTY : ℚ
  INITIAL_BANKROLL : ℚ
  KELLY_FRACTION : ℚ
  MAX_BET_PERCENT : ℚ
  MAX_EXPRESS_BET_PERCENT : ℚ
  MAX_SYSTEM_BET_PERCENT : ℚ
  MIN_BET_AMOUNT : ℚ
  MAX_DAILY_LOSS_PERCENT : ℚ
  MAX_WEEKLY_LOSS_PERCENT : ℚ
  MAX_LOSING_STREAK : ℕ
  BANKRUPTCY_THRESHOLD : ℚ
deriving DecidableEq, Repr

/-- The `betting_config` singleton with the default values of
`src/config/settings.py`. -/
def betting_config : BettingConfig :=
  { MIN_VALUE_EDGE := 0.02
    MIN_CONFIRMED_EDGE := 0.05
    MAX_VALUE_EDGE := 0.60
    MIN_ODDS := 1.05
    MAX_ODDS := 20
    MIN_BOOKMAKERS := 1
    SHARP_BOOKMAKER := ""
    EXPRESS_CORRELATION_DISCOUNT := 0.95
    EXPRESS_SAME_LEAGUE_PENALTY := 0.90
    EXPRESS_SAME_DAY_PENALTY := 0.97
    INITIAL_BANKROLL := 100000
    KELLY_FRACTION := 0.15
    MAX_BET_PERCENT := 0.05
    MAX_EXPRESS_BET_PERCENT := 0.03
    MAX_SYSTEM_BET_PERCENT := 0.03
    MIN_BET_AMOUNT := 100
    MAX_DAILY_LOSS_PERCENT := 0.08
    MAX_WEEKLY_LOSS_PERCENT := 0.15
    MAX_LOSING_STREAK := 7
    BANKRUPTCY_THRESHOLD := 0.15 }

/-!
## Bankroll management (`src/Stavki3/bankroll.py`)

The mutable `BankrollManager` instance becomes an explicit state record;
each method becomes a state-passing function. The ambient wall clock
`datetime.utcnow()` is carried as the `now` field (time does not advance
within a verified call chain). `_stop` reasons are kept as fixed strings
(the source interpolates numbers into them; no verified property reads
them).
-/

/-- `BetRecord` (its `timestamp` field is never read, so omitted). -/
structure BetRecord where
  signal_id : String
  bet_type : String
  stake : ℚ
  odds : ℚ
  result : String
  profit : ℚ
deriving DecidableEq, Repr

/-- The state of a `BankrollManager` instance. -/
structure BankrollState where
  bankroll : ℚ
  initial_bankroll : ℚ
  peak_bankroll : ℚ
  bet_history : List BetRecord
  daily_pnl : ℚ
  weekly_pnl : ℚ
  daily_reset : PyTime
  losing_streak : ℕ
  is_stopped : Bool
  stop_reason : String
  now : PyTime
deriving DecidableEq, Repr

/-- `BankrollManager.__init__(initial_bankroll)` at clock `now`. -/
def initBankroll (initial : ℚ) (now : PyTime) : BankrollState :=
  { bankroll := initial
    initial_bankroll := initial
    peak_bankroll := initial
    bet_history := []
    daily_pnl := 0
    weekly_pnl := 0
    daily_reset := ⟨now.day, 0⟩
    losing_streak := 0
    is_stopped := false
    stop_reason := ""
    now := now }

/-- `BankrollManager.current_drawdown`. -/
def current_drawdown (s : BankrollState) : ℚ :=
  if s.peak_bankroll ≤ 0 then 0
  else (s.peak_bankroll - s.bankroll) / s.peak_bankroll

/-- `BankrollManager.adaptive_kelly_fraction`. -/
def adaptive_kelly_fraction (s : BankrollState) : ℚ :=
  let base := betting_config.KELLY_FRACTION
  let base :=
    if 5 ≤ s.losing_streak then base * 0.50
    else if 3 ≤ s.losing_streak then base * 0.75
    else base
  let drawdown := current_drawdown s
  if 0.15 < drawdown then base * 0.50
  else if 0.10 < drawdown then base * 0.75
  else base

/-- `BankrollManager.kelly_single`. -/
def kelly_single (s : BankrollState) (sig : ValueSignal) : ℚ :=
  if s.is_stopped then 0
  else
    let p := sig.model_probability
    let b := sig.bookmaker_odds - 1
    let q := 1 - p
    if b ≤ 0 ∨ p ≤ 0 then 0
    else
      let fstar := (b * p - q) / b
      if fstar ≤ 0 then 0
      else
        let f := fstar * adaptive_kelly_fraction s
        let f := min f betting_config.MAX_BET_PERCENT
        let stake := round2 (s.bankroll * f)
        if betting_config.MIN_BET_AMOUNT ≤ stake then stake else 0

/-- `BankrollManager.kelly_express`. -/
def kelly_express (s : BankrollState) (e : ExpressBet) : ℚ :=
  if s.is_stopped then 0
  else
    let total_odds := e.total_odds
    let prob := e.adjusted_probability
    if total_odds ≤ 1 ∨ prob ≤ 0 then 0
    else
      let b := total_odds - 1
      let fstar := (b * prob - (1 - prob)) / b
      if fstar ≤ 0 then 0
      else
        let f := fstar * adaptive_kelly_fraction s * 0.5
        let f := min f betting_config.MAX_EXPRESS_BET_PERCENT
        let stake := round2 (s.bankroll * f)
        if betting_config.MIN_BET_AMOUNT ≤ stake then stake else 0

/-- `BankrollManager.kelly_system`. -/
def kelly_system (s : BankrollState) (sys : SystemBet) : ℚ :=
  if s.is_stopped then 0
  else
    let max_total := s.bankroll * betting_config.MAX_SYSTEM_BET_PERCENT
    let per_combo := max_total / (sys.num_combinations : ℚ)
    round2 (max per_combo 0.5)

/-- `BankrollManager._update_periods`. -/
def update_periods (s : BankrollState) : BankrollState :=
  let s :=
    if s.daily_reset.day < s.now.day then
      { s with daily_pnl := 0, daily_reset := ⟨s.now.day, 0⟩ }
    else s
  if s.now.day % 7 = 0 ∧
      3600 < (s.now.day - s.daily_reset.day) * 86400 + s.now.secs then
    { s with weekly_pnl := 0 }
  else s

/-- `BankrollManager._stop`. -/
def do_stop (s : BankrollState) (reason : String) : BankrollState :=
  { s with is_stopped := true, stop_reason := reason }

/-- `BankrollManager.reset_stop`. -/
def reset_stop (s : BankrollState) : BankrollState :=
  { s with is_stopped := false, stop_reason := "", losing_streak := 0 }

/-- `BankrollManager.check_stop_conditions` (the source also returns a
Bool that its in-repo callers discard; the embedding keeps the state
effect). -/
def check_stop_conditions (s : BankrollState) : BankrollState :=
  let s := update_periods s
  if s.bankroll * betting_config.MAX_DAILY_LOSS_PERCENT <
      |min s.daily_pnl 0| then
    do_stop s "Daily stop-loss triggered"
  else if s.bankroll * betting_config.MAX_WEEKLY_LOSS_PERCENT <
      |min s.weekly_pnl 0| then
    do_stop s "Weekly stop-loss triggered"
  else if betting_config.MAX_LOSING_STREAK ≤ s.losing_streak then
    do_stop s "Losing streak"
  else if s.bankroll <
      s.initial_bankroll * betting_config.BANKRUPTCY_THRESHOLD then
    do_stop s "Bankroll critical"
  else if 0.30 < current_drawdown s then
    do_stop s "Max drawdown"
  else s

/-- `BankrollManager.record_bet` (appends a pending record and debits
the stake; the source also returns the record). -/
def record_bet (s : BankrollState) (signal_id bet_type : String)
    (stake odds : ℚ) : BankrollState :=
  { s with
    bet_history := s.bet_history ++
      [⟨signal_id, bet_type, stake, odds, "pending", 0⟩]
    bankroll := s.bankroll - stake }

/-- The settled copy of a record, with the profit assigned by
`settle_bet`'s branches. -/
def settled_record (r : BetRecord) (result : String) : BetRecord :=
  if result = "won" then
    { r with result := result, profit := r.stake * r.odds - r.stake }
  else if result = "void" then { r with result := result, profit := 0 }
  else { r with result := result, profit := -r.stake }

/-- Scan of `reversed(bet_history)` for the first pending record with
the given signal id; returns the updated (still reversed) list and the
settled record. -/
def scanRev (signal_id result : String) :
    List BetRecord → Option (List BetRecord × BetRecord)
  | [] => none
  | r :: rest =>
    if r.signal_id = signal_id ∧ r.result = "pending" then
      some (settled_record r result :: rest, settled_record r result)
    else
      match scanRev signal_id result rest with
      | none => none
      | some (rest', rec') => some (r :: rest', rec')

/-- `BankrollManager.settle_bet`. When no pending record matches, the
source only logs a warning; the state is unchanged. -/
def settle_bet (s : BankrollState) (signal_id result : String) :
    BankrollState :=
  match scanRev signal_id result s.bet_history.reverse with
  | none => s
  | some (rev', rec') =>
    let s := { s with bet_history := rev'.reverse }
    let s :=
      if result = "won" then
        { s with bankroll := s.bankroll + rec'.stake + rec'.profit
                 losing_streak := 0 }
      else if result = "void" then
        { s with bankroll := s.bankroll + rec'.stake }
      else { s with losing_streak := s.losing_streak + 1 }
    let s := { s with daily_pnl := s.daily_pnl + rec'.profit
                      weekly_pnl := s.weekly_pnl + rec'.profit }
    let s :=
      if s.peak_bankroll < s.bankroll then
        { s with peak_bankroll := s.bankroll }
      else s
    check_stop_conditions s

theorem adaptive_kelly_fraction_pos (s : BankrollState) :
    0 < adaptive_kelly_fraction s := by
  simp only [adaptive_kelly_fraction]
  split_ifs <;> norm_num [betting_config]

theorem update_periods_is_stopped (s : BankrollState) :
    (update_periods s).is_stopped = s.is_stopped := by
  simp only [update_periods]
  split_ifs <;> rfl

theorem update_periods_bet_history (s : BankrollState) :
    (update_periods s).bet_history = s.bet_history := by
  simp only [update_periods]
  split_ifs <;> rfl

theorem check_stop_conditions_is_stopped (s : BankrollState)
    (h : s.is_stopped = true) :
    (check_stop_conditions s).is_stopped = true := by
  simp only [check_stop_conditions]
  split_ifs <;>
    simp [do_stop, update_periods_is_stopped, h]

theorem check_stop_conditions_bet_history (s : BankrollState) :
    (check_stop_conditions s).bet_history = s.bet_history := by
  simp only [check_stop_conditions]
  split_ifs <;> simp [do_stop, update_periods_bet_history]

theorem scanRev_none {signal_id result : String} {l : List BetRecord}
    (h : ∀ r ∈ l, ¬(r.signal_id = signal_id ∧ r.result = "pending")) :
    scanRev signal_id result l = none := by
  induction l with
  | nil => rfl
  | cons r rest ih =>
    unfold scanRev
    rw [if_neg (h r (List.mem_cons_self r rest))]
    rw [ih (fun x hx => h x (List.mem_cons_of_mem r hx))]

/-- `settle_bet` on a signal id with no pending record is the identity
on the whole bankroll state. -/
theorem settle_bet_unknown_id {s : BankrollState} {signal_id result : String}
    (h : ∀ r ∈ s.bet_history,
      ¬(r.signal_id = signal_id ∧ r.result = "pending")) :
    settle_bet s signal_id result = s := by
  unfold settle_bet
  rw [scanRev_none (fun r hr => h r (List.mem_reverse.mp hr))]

/-- The settled record carries the result it was settled with. -/
theorem settled_record_result (r : BetRecord) (result : String) :
    (settled_record r result).result = result := by
  unfold settled_record
  split_ifs <;> rfl

theorem settled_record_id (r : BetRecord) (result : String) :
    (settled_record r result).signal_id = r.signal_id := by
  unfold settled_record
  split_ifs <;> rfl

/-- After `record_bet` of a fresh signal id, `settle_bet` settles exactly
that appended record: the ledger becomes the old one plus the settled
copy. -/
theorem settle_after_record_history (s0 : BankrollState)
    (signal_id bet_type : String) (stake odds : ℚ) (result : String) :
    (settle_bet (record_bet s0 signal_id bet_type stake odds)
        signal_id result).bet_history
      = s0.bet_history ++
        [settled_record ⟨signal_id, bet_type, stake, odds, "pending", 0⟩
          result] := by
  have hrev : (record_bet s0 signal_id bet_type stake odds).bet_history.reverse
      = (⟨signal_id, bet_type, stake, odds, "pending", 0⟩ : BetRecord)
        :: s0.bet_history.reverse := by
    simp [record_bet]
  unfold settle_bet
  rw [hrev]
  unfold scanRev
  rw [if_pos ⟨rfl, rfl⟩]
  simp only
  rw [check_stop_conditions_bet_history]
  split_ifs <;> simp

/-- C2 counterexample: on a fresh (not halted) bankroll of 1000 a 2-of-3
system bet is sized at 10 per combination — neither 0 nor at least the
configured minimum bet amount of 100 — because `kelly_system` never
consults `MIN_BET_AMOUNT` and floors its share at the hard-coded 0.5. -/
theorem kelly_system_counterexample :
    kelly_system (initBankroll 1000 ⟨3, 0⟩) ⟨[], 2, 3⟩ = 10 ∧
    ¬(kelly_system (initBankroll 1000 ⟨3, 0⟩) ⟨[], 2, 3⟩ = 0 ∨
      (betting_config.MIN_BET_AMOUNT ≤
          kelly_system (initBankroll 1000 ⟨3, 0⟩) ⟨[], 2, 3⟩ ∧
        kelly_system (initBankroll 1000 ⟨3, 0⟩) ⟨[], 2, 3⟩ ≤
          betting_config.MAX_SYSTEM_BET_PERCENT *
            (initBankroll 1000 ⟨3, 0⟩).bankroll)) := by
  have hval : kelly_system (initBankroll 1000 ⟨3, 0⟩) ⟨[], 2, 3⟩ = 10 := by
    norm_num [kelly_system, initBankroll, betting_config,
      SystemBet.num_combinations, round2, roundEven, Nat.choose]
  refine ⟨hval, ?_⟩
  rw [hval]
  norm_num [betting_config, initBankroll]

/-- C2 (amended): `kelly_single` and `kelly_express` return either 0 or
a stake at least the configured minimum and at most the configured
percent-of-bankroll cap plus half a cent of rounding slack; the
per-combination `kelly_system` stake instead ignores the minimum-bet
bound entirely — whenever the bankroll is not halted it is at least the
hard-coded floor 0.5, which can lie strictly between 0 and the
minimum. -/
theorem kelly_bounds :
    (∀ (s : BankrollState) (sig : ValueSignal), kelly_single s sig = 0 ∨
      (betting_config.MIN_BET_AMOUNT ≤ kelly_single s sig ∧
        kelly_single s sig ≤
          s.bankroll * betting_config.MAX_BET_PERCENT + 1/200)) ∧
    (∀ (s : BankrollState) (e : ExpressBet), kelly_express s e = 0 ∨
      (betting_config.MIN_BET_AMOUNT ≤ kelly_express s e ∧
        kelly_express s e ≤
          s.bankroll * betting_config.MAX_EXPRESS_BET_PERCENT + 1/200)) ∧
    (∀ (s : BankrollState) (sys : SystemBet),
      s.is_stopped = false → 1/2 ≤ kelly_system s sys) := by
  refine ⟨?_, ?_, ?_⟩
  · intro s sig
    simp only [kelly_single]
    split_ifs with h1 h2 h3 h4
    · exact Or.inl rfl
    · exact Or.inl rfl
    · exact Or.inl rfl
    · right
      refine ⟨h4, ?_⟩
      set f0 := ((sig.bookmaker_odds - 1) * sig.model_probability -
        (1 - sig.model_probability)) / (sig.bookmaker_odds - 1) *
        adaptive_kelly_fraction s with hf0
      have hfpos : 0 < min f0 betting_config.MAX_BET_PERCENT := by
        apply lt_min
        · exact mul_pos (lt_of_not_le h3) (adaptive_kelly_fraction_pos s)
        · norm_num [betting_config]
      have hrle := round2_le (s.bankroll * min f0 betting_config.MAX_BET_PERCENT)
      have hmin : (100 : ℚ) ≤
          round2 (s.bankroll * min f0 betting_config.MAX_BET_PERCENT) := by
        simpa [betting_config] using h4
      have hBfpos : 0 < s.bankroll * min f0 betting_config.MAX_BET_PERCENT := by
        linarith
      have hBpos : 0 < s.bankroll := by
        by_contra hb
        push_neg at hb
        have : s.bankroll * min f0 betting_config.MAX_BET_PERCENT ≤ 0 :=
          mul_nonpos_iff.mpr (Or.inr ⟨hb, hfpos.le⟩)
        linarith
      have hcap : s.bankroll * min f0 betting_config.MAX_BET_PERCENT ≤
          s.bankroll * betting_config.MAX_BET_PERCENT :=
        mul_le_mul_of_nonneg_left (min_le_right _ _) hBpos.le
      linarith
    · exact Or.inl rfl
  · intro s e
    simp only [kelly_express]
    split_ifs with h1 h2 h3 h4
    · exact Or.inl rfl
    · exact Or.inl rfl
    · exact Or.inl rfl
    · right
      refine ⟨h4, ?_⟩
      set f0 := ((e.total_odds - 1) * e.adjusted_probability -
        (1 - e.adjusted_probability)) / (e.total_odds - 1) *
        adaptive_kelly_fraction s * 0.5 with hf0
      have hfpos : 0 < min f0 betting_config.MAX_EXPRESS_BET_PERCENT := by
        apply lt_min
        · exact mul_pos
            (mul_pos (lt_of_not_le h3) (adaptive_kelly_fraction_pos s))
            (by norm_num)
        · norm_num [betting_config]
      have hrle := round2_le
        (s.bankroll * min f0 betting_config.MAX_EXPRESS_BET_PERCENT)
      have hmin : (100 : ℚ) ≤ round2
          (s.bankroll * min f0 betting_config.MAX_EXPRESS_BET_PERCENT) := by
        simpa [betting_config] using h4
      have hBfpos :
          0 < s.bankroll * min f0 betting_config.MAX_EXPRESS_BET_PERCENT := by
        linarith
      have hBpos : 0 < s.bankroll := by
        by_contra hb
        push_neg at hb
        have : s.bankroll * min f0 betting_config.MAX_EXPRESS_BET_PERCENT ≤ 0 :=
          mul_nonpos_iff.mpr (Or.inr ⟨hb, hfpos.le⟩)
        linarith
      have hcap : s.bankroll * min f0 betting_config.MAX_EXPRESS_BET_PERCENT ≤
          s.bankroll * betting_config.MAX_EXPRESS_BET_PERCENT :=
        mul_le_mul_of_nonneg_left (min_le_right _ _) hBpos.le
      linarith
    · exact Or.inl rfl
  · intro s sys h
    simp only [kelly_system, h, Bool.false_eq_true, if_false]
    apply round2_ge_half
    have := le_max_right
      (s.bankroll * betting_config.MAX_SYSTEM_BET_PERCENT /
        (sys.num_combinations : ℚ)) (0.5 : ℚ)
    calc (1/2 : ℚ) = (0.5 : ℚ) := by norm_num
      _ ≤ _ := this

/-- Witness for `kelly_bounds`: the not-halted fresh bankroll of 1000
sizes the 2-of-3 system at no less than the 0.5 floor. -/
theorem kelly_bounds_witness :
    1/2 ≤ kelly_system (initBankroll 1000 ⟨3, 0⟩) ⟨[], 2, 3⟩ :=
  kelly_bounds.2.2 (initBankroll 1000 ⟨3, 0⟩) ⟨[], 2, 3⟩ rfl

/-- C3 counterexample: `record_bet` is not idempotent per signal id — a
second `record_bet` with the already-recorded id "s1" debits the stake
again, moving the balance from 99900 to 99800 instead of leaving it
unchanged. -/
theorem record_bet_counterexample :
    (record_bet (initBankroll 100000 ⟨3, 0⟩) "s1" "single" 100 2).bankroll
      = 99900 ∧
    (record_bet (record_bet (initBankroll 100000 ⟨3, 0⟩) "s1" "single" 100 2)
        "s1" "single" 100 2).bankroll = 99800 ∧
    (99800 : ℚ) ≠ 99900 := by
  refine ⟨?_, ?_, by norm_num⟩ <;> norm_num [record_bet, initBankroll]

/-- C3 (amended): the balance changes only through `record_bet` (debit)
and `settle_bet`; `settle_bet` is idempotent per signal id — settling an
id with no pending record leaves the entire state unchanged, and after a
single `record_bet` of a fresh id a second settlement of that id is a
no-op — but `record_bet` is not idempotent: every call, including one
repeating an already-recorded signal id, debits its stake again. -/
theorem settlement_idempotent :
    (∀ (s : BankrollState) (signal_id result : String),
      (∀ r ∈ s.bet_history,
        ¬(r.signal_id = signal_id ∧ r.result = "pending")) →
      settle_bet s signal_id result = s) ∧
    (∀ (s0 : BankrollState) (signal_id bet_type : String) (stake odds : ℚ)
        (result result2 : String),
      (∀ r ∈ s0.bet_history,
        ¬(r.signal_id = signal_id ∧ r.result = "pending")) →
      result ≠ "pending" →
      settle_bet (settle_bet (record_bet s0 signal_id bet_type stake odds)
          signal_id result) signal_id result2
        = settle_bet (record_bet s0 signal_id bet_type stake odds)
            signal_id result) ∧
    (∀ (s : BankrollState) (signal_id bet_type : String) (stake odds : ℚ),
      (record_bet s signal_id bet_type stake odds).bankroll
        = s.bankroll - stake) := by
  refine ⟨fun s signal_id result h => settle_bet_unknown_id h, ?_,
    fun s signal_id bet_type stake odds => rfl⟩
  intro s0 signal_id bet_type stake odds result result2 h hres
  apply settle_bet_unknown_id
  rw [settle_after_record_history]
  intro r hr
  rcases List.mem_append.mp hr with h1 | h1
  · exact h r h1
  · simp only [List.mem_singleton] at h1
    subst h1
    rintro ⟨-, hres2⟩
    rw [settled_record_result] at hres2
    exact hres hres2

/-- Witness for `settlement_idempotent`: settling an unknown id on a
fresh bankroll is a no-op, and a double settlement after a single
recorded bet equals the single settlement. -/
theorem settlement_idempotent_witness :
    settle_bet (initBankroll 1000 ⟨3, 0⟩) "x" "lost"
      = initBankroll 1000 ⟨3, 0⟩ ∧
    settle_bet (settle_bet (record_bet (initBankroll 1000 ⟨3, 0⟩)
        "s1" "single" 100 2) "s1" "won") "s1" "won"
      = settle_bet (record_bet (initBankroll 1000 ⟨3, 0⟩)
          "s1" "single" 100 2) "s1" "won" :=
  ⟨settlement_idempotent.1 _ _ _ (by simp [initBankroll]),
   settlement_idempotent.2.1 _ _ _ _ _ _ _ (by simp [initBankroll])
     (by decide)⟩

/-- One losing round of the halt scenario: record a 100-unit single at
odds 2, then settle it as lost. -/
def losingRound (s : BankrollState) (signal_id : String) : BankrollState :=
  settle_bet (record_bet s signal_id "single" 100 2) signal_id "lost"

/-- The losing trace of the halt scenario, started from a fresh bankroll
of 100000 on a mid-week day (day 3; no weekly reset fires), with stakes
small enough that no other stop condition triggers first. Each round
re-uses signal id "s": `settle_bet` always settles the most recent
pending record with that id. -/
def losingTrace : ℕ → BankrollState
  | 0 => initBankroll 100000 ⟨3, 0⟩
  | n + 1 => losingRound (losingTrace n) "s"

/-- The ledger entry left by each settled losing round of the trace. -/
def traceRec : BetRecord := ⟨"s", "single", 100, 2, "lost", -100⟩

/-- The bankroll state after `k` losing rounds of the trace (valid while
no stop condition has fired). -/
def traceState (k : ℕ) : BankrollState :=
  { bankroll := 100000 - 100 * (k : ℚ)
    initial_bankroll := 100000
    peak_bankroll := 100000
    bet_history := List.replicate k traceRec
    daily_pnl := -(100 * (k : ℚ))
    weekly_pnl := -(100 * (k : ℚ))
    daily_reset := ⟨3, 0⟩
    losing_streak := k
    is_stopped := false
    stop_reason := ""
    now := ⟨3, 0⟩ }

/-- Settling a freshly recorded bet as lost: the pending record becomes
a lost record with profit `-stake`, the streak increments, both P&L
accumulators drop by the stake, and the stop conditions are
re-evaluated. -/
theorem settle_lost_after_record (s0 : BankrollState) (id t : String)
    (stake odds : ℚ) :
    settle_bet (record_bet s0 id t stake odds) id "lost" =
      check_stop_conditions
        { s0 with
          bet_history := s0.bet_history ++ [⟨id, t, stake, odds, "lost", -stake⟩]
          bankroll := s0.bankroll - stake
          losing_streak := s0.losing_streak + 1
          daily_pnl := s0.daily_pnl + -stake
          weekly_pnl := s0.weekly_pnl + -stake
          peak_bankroll :=
            if s0.peak_bankroll < s0.bankroll - stake then s0.bankroll - stake
            else s0.peak_bankroll } := by
  have hrev : (record_bet s0 id t stake odds).bet_history.reverse
      = (⟨id, t, stake, odds, "pending", 0⟩ : BetRecord)
        :: s0.bet_history.reverse := by
    simp [record_bet]
  have hsettled : settled_record ⟨id, t, stake, odds, "pending", 0⟩ "lost"
      = ⟨id, t, stake, odds, "lost", -stake⟩ := by
    simp [settled_record]
  unfold settle_bet
  rw [hrev]
  unfold scanRev
  rw [if_pos ⟨rfl, rfl⟩]
  simp only [hsettled, record_bet, List.reverse_cons, List.reverse_reverse]
  simp
  split_ifs <;> rfl

/-- `check_stop_conditions` is the identity when no period rolls over and
no stop condition fires. -/
theorem check_stop_conditions_id (s : BankrollState)
    (hd : ¬ s.daily_reset.day < s.now.day)
    (hw : ¬ (s.now.day % 7 = 0 ∧
      3600 < ((s.now.day : ℚ) - (s.daily_reset.day : ℚ)) * 86400 + s.now.secs))
    (h1 : ¬ s.bankroll * betting_config.MAX_DAILY_LOSS_PERCENT <
      |min s.daily_pnl 0|)
    (h2 : ¬ s.bankroll * betting_config.MAX_WEEKLY_LOSS_PERCENT <
      |min s.weekly_pnl 0|)
    (h3 : ¬ betting_config.MAX_LOSING_STREAK ≤ s.losing_streak)
    (h4 : ¬ s.bankroll <
      s.initial_bankroll * betting_config.BANKRUPTCY_THRESHOLD)
    (h5 : ¬ (0.30 : ℚ) < current_drawdown s) :
    check_stop_conditions s = s := by
  have hup : update_periods s = s := by
    simp only [update_periods]
    rw [if_neg hd, if_neg hw]
  simp only [check_stop_conditions, hup]
  rw [if_neg h1, if_neg h2, if_neg h3, if_neg h4, if_neg h5]

/-- Abs of `min x 0` for nonpositive `x`. -/
theorem abs_min_nonpos {x : ℚ} (hx : x ≤ 0) : |min x 0| = -x := by
  rw [min_eq_left hx, abs_of_nonpos hx]

theorem traceState_zero : traceState 0 = initBankroll 100000 ⟨3, 0⟩ := by
  norm_num [traceState, initBankroll, List.replicate]

/-- One losing round maps the `k`-loss trace state to the `(k+1)`-loss
one, up to the re-evaluation of the stop conditions. -/
theorem losingRound_traceState_eq (k : ℕ) :
    losingRound (traceState k) "s" =
      check_stop_conditions (traceState (k + 1)) := by
  have hk0 : (0 : ℚ) ≤ (k : ℚ) := by positivity
  unfold losingRound
  rw [settle_lost_after_record]
  congr 1
  simp only [traceState]
  congr 1
  case e_s.e_peak_bankroll =>
    split_ifs with h
    · exact absurd h (by linarith)
    · rfl
  case e_s.e_bet_history =>
    rw [List.replicate_succ']
    rfl
  all_goals (push_cast; ring)

theorem losingRound_traceState {k : ℕ} (hk : k ≤ 5) :
    losingRound (traceState k) "s" = traceState (k + 1) := by
  have hk1 : ((k : ℚ)) + 1 ≤ 6 := by
    have : ((k : ℚ)) ≤ 5 := by exact_mod_cast hk
    linarith
  have hk0 : (0 : ℚ) ≤ (k : ℚ) := by positivity
  rw [losingRound_traceState_eq]
  apply check_stop_conditions_id
  · simp [traceState]
  · simp [traceState]
  · simp only [traceState, betting_config]
    intro hcon
    rw [abs_min_nonpos (by push_cast; linarith)] at hcon
    push_cast at hcon
    linarith
  · simp only [traceState, betting_config]
    intro hcon
    rw [abs_min_nonpos (by push_cast; linarith)] at hcon
    push_cast at hcon
    linarith
  · simp only [traceState, betting_config]
    omega
  · simp only [traceState, betting_config]
    intro hcon
    push_cast at hcon
    linarith
  · simp only [traceState, current_drawdown]
    rw [if_neg (by norm_num)]
    intro hcon
    rw [lt_div_iff₀ (by norm_num)] at hcon
    push_cast at hcon
    linarith

/-- The seventh loss fires the losing-streak stop. -/
theorem losingRound_halts :
    losingRound (traceState 6) "s" =
      { traceState 7 with
        is_stopped := true
        stop_reason := "Losing streak" } := by
  rw [losingRound_traceState_eq]
  have hup : update_periods (traceState 7) = traceState 7 := by
    simp only [update_periods]
    rw [if_neg (by simp [traceState]), if_neg (by simp [traceState])]
  simp only [check_stop_conditions, hup]
  have hc1 : ¬ ((traceState 7).bankroll *
      betting_config.MAX_DAILY_LOSS_PERCENT <
      |min (traceState 7).daily_pnl 0|) := by
    norm_num [traceState, betting_config]
  have hc2 : ¬ ((traceState 7).bankroll *
      betting_config.MAX_WEEKLY_LOSS_PERCENT <
      |min (traceState 7).weekly_pnl 0|) := by
    norm_num [traceState, betting_config]
  have hc3 : betting_config.MAX_LOSING_STREAK ≤
      (traceState 7).losing_streak := by
    norm_num [traceState, betting_config]
  rw [if_neg hc1, if_neg hc2, if_pos hc3]
  rfl

theorem losingTrace_eq {k : ℕ} (hk : k ≤ 6) :
    losingTrace k = traceState k := by
  induction k with
  | zero => exact traceState_zero.symm
  | succ n ih =>
    rw [show losingTrace (n + 1) = losingRound (losingTrace n) "s" from rfl,
      ih (by omega), losingRound_traceState (by omega)]


/-- C4: with the configured `MAX_LOSING_STREAK = 7`, seven consecutive
losing settlements on a fresh bankroll leave the controller halted after
the seventh settlement and not halted after each of the first six. -/
theorem seven_losses_halt :
    betting_config.MAX_LOSING_STREAK = 7 ∧
    (losingTrace 1).is_stopped = false ∧
    (losingTrace 2).is_stopped = false ∧
    (losingTrace 3).is_stopped = false ∧
    (losingTrace 4).is_stopped = false ∧
    (losingTrace 5).is_stopped = false ∧
    (losingTrace 6).is_stopped = false ∧
    (losingTrace 7).is_stopped = true := by
  refine ⟨rfl, ?_, ?_, ?_, ?_, ?_, ?_, ?_⟩
  · rw [losingTrace_eq (by omega : (1:ℕ) ≤ 6)]; rfl
  · rw [losingTrace_eq (by omega : (2:ℕ) ≤ 6)]; rfl
  · rw [losingTrace_eq (by omega : (3:ℕ) ≤ 6)]; rfl
  · rw [losingTrace_eq (by omega : (4:ℕ) ≤ 6)]; rfl
  · rw [losingTrace_eq (by omega : (5:ℕ) ≤ 6)]; rfl
  · rw [losingTrace_eq (by omega : (6:ℕ) ≤ 6)]; rfl
  · rw [show losingTrace 7 = losingRound (losingTrace 6) "s" from rfl,
      losingTrace_eq (by omega : (6:ℕ) ≤ 6), losingRound_halts]

/-- C5: a set halt flag makes all three sizing operations return exactly
0, survives any settlement, and is cleared only by `reset_stop`, which
also zeroes the losing-streak counter. -/
theorem halted_blocks_sizing :
    (∀ (s : BankrollState) (sig : ValueSignal),
      s.is_stopped = true → kelly_single s sig = 0) ∧
    (∀ (s : BankrollState) (e : ExpressBet),
      s.is_stopped = true → kelly_express s e = 0) ∧
    (∀ (s : BankrollState) (sys : SystemBet),
      s.is_stopped = true → kelly_system s sys = 0) ∧
    (∀ (s : BankrollState) (signal_id result : String),
      s.is_stopped = true →
      (settle_bet s signal_id result).is_stopped = true) ∧
    (∀ s : BankrollState,
      (reset_stop s).is_stopped = false ∧
      (reset_stop s).losing_streak = 0) := by
  refine ⟨fun s sig h => by simp [kelly_single, h],
    fun s e h => by simp [kelly_express, h],
    fun s sys h => by simp [kelly_system, h], ?_,
    fun s => ⟨rfl, rfl⟩⟩
  intro s signal_id result h
  unfold settle_bet
  cases hs : scanRev signal_id result s.bet_history.reverse with
  | none => exact h
  | some pr =>
    apply check_stop_conditions_is_stopped
    split_ifs <;> simp [h]

/-- The concrete halted state used to witness `halted_blocks_sizing`. -/
def haltedState : BankrollState := do_stop (initBankroll 1000 ⟨3, 0⟩) "x"

/-- Witness for `halted_blocks_sizing` at a concrete halted state. -/
theorem halted_blocks_sizing_witness :
    kelly_single haltedState ⟨none, BetOutcome.home, 0.6, 2, "bk", 0.2,
      ConfidenceLevel.low, 1, false, SignalStatus.pending⟩ = 0 ∧
    kelly_express haltedState ⟨[], 1⟩ = 0 ∧
    kelly_system haltedState ⟨[], 2, 3⟩ = 0 ∧
    (settle_bet haltedState "a" "lost").is_stopped = true ∧
    (reset_stop haltedState).is_stopped = false ∧
    (reset_stop haltedState).losing_streak = 0 := by
  obtain ⟨h1, h2, h3, h4, h5⟩ := halted_blocks_sizing
  exact ⟨h1 _ _ rfl, h2 _ _ rfl, h3 _ _ rfl, h4 _ _ _ rfl,
    (h5 _).1, (h5 _).2⟩

/-!
## Correlation-aware expresses (`src/core/value_engine.py`, lines 434-459)
-/

/-- `ValueBettingEngine._correlation_discount`: per-extra-leg discount,
compounded same-league penalties (one per duplicated league entry) and a
single same-day penalty, rounded to 4 decimals. -/
def correlation_discount (signals : List ValueSignal) : ℚ :=
  let n := signals.length
  let discount := (1 : ℚ) *
    betting_config.EXPRESS_CORRELATION_DISCOUNT ^ (n - 1)
  let leagues := signals.filterMap (fun s => s.mtch.map Match.league)
  let uniqueLeagues := leagues.dedup
  let discount :=
    if uniqueLeagues.length < leagues.length then
      discount * betting_config.EXPRESS_SAME_LEAGUE_PENALTY ^
        (leagues.length - uniqueLeagues.length)
    else discount
  let dates := signals.filterMap
    (fun s => s.mtch.map (fun m => m.commence_time.day))
  let discount :=
    if dates.dedup.length < dates.length then
      discount * betting_config.EXPRESS_SAME_DAY_PENALTY
    else discount
  round4 discount

/-- A signal carrying only the match reference, as consumed by
`correlation_discount`. -/
def legSignal (m : Match) : ValueSignal :=
  ⟨some m, BetOutcome.home, 0, 0, "", 0, ConfidenceLevel.low, 1, false,
    SignalStatus.pending⟩

/-- Evaluation of `correlation_discount` on a two-leg combination: one
extra-leg discount, a same-league penalty when the two legs share a
league, and a same-day penalty when they share a calendar day. -/
theorem correlation_discount_pair (sa sb : ValueSignal) (ma mb : Match)
    (ha : sa.mtch = some ma) (hb : sb.mtch = some mb) :
    correlation_discount [sa, sb] =
      round4 (1 * betting_config.EXPRESS_CORRELATION_DISCOUNT ^ 1 *
        (if ma.league = mb.league then
          betting_config.EXPRESS_SAME_LEAGUE_PENALTY else 1) *
        (if ma.commence_time.day = mb.commence_time.day then
          betting_config.EXPRESS_SAME_DAY_PENALTY else 1)) := by
  have hsingL : ([mb.league] : List String).dedup = [mb.league] := by
    rw [List.dedup_cons_of_not_mem (List.not_mem_nil _), List.dedup_nil]
  have hsingD : ([mb.commence_time.day] : List ℤ).dedup
      = [mb.commence_time.day] := by
    rw [List.dedup_cons_of_not_mem (List.not_mem_nil _), List.dedup_nil]
  simp only [correlation_discount, List.filterMap_cons, List.filterMap_nil,
    ha, hb, Option.map_some', List.length_cons, List.length_nil]
  by_cases hL : ma.league = mb.league <;>
    by_cases hD : ma.commence_time.day = mb.commence_time.day
  · have hdD : (ma.commence_time.day :: [mb.commence_time.day]).dedup
        = [mb.commence_time.day] := by
      rw [List.dedup_cons_of_mem (by simp [hD])]
      exact hsingD
    have hdL : (ma.league :: [mb.league]).dedup = [mb.league] := by
      rw [List.dedup_cons_of_mem (by simp [hL])]
      exact hsingL
    rw [hdD, hdL]
    norm_num [hL, hD]
  · have hdD : (ma.commence_time.day :: [mb.commence_time.day]).dedup
        = ma.commence_time.day :: [mb.commence_time.day] := by
      rw [List.dedup_cons_of_not_mem (by simp [hD])]
      rw [hsingD]
    have hdL : (ma.league :: [mb.league]).dedup = [mb.league] := by
      rw [List.dedup_cons_of_mem (by simp [hL])]
      exact hsingL
    rw [hdD, hdL]
    norm_num [hL, hD]
  · have hdD : (ma.commence_time.day :: [mb.commence_time.day]).dedup
        = [mb.commence_time.day] := by
      rw [List.dedup_cons_of_mem (by simp [hD])]
      exact hsingD
    have hdL : (ma.league :: [mb.league]).dedup
        = ma.league :: [mb.league] := by
      rw [List.dedup_cons_of_not_mem (by simp [hL])]
      rw [hsingL]
    rw [hdD, hdL]
    norm_num [hL, hD]
  · have hdD : (ma.commence_time.day :: [mb.commence_time.day]).dedup
        = ma.commence_time.day :: [mb.commence_time.day] := by
      rw [List.dedup_cons_of_not_mem (by simp [hD])]
      rw [hsingD]
    have hdL : (ma.league :: [mb.league]).dedup
        = ma.league :: [mb.league] := by
      rw [List.dedup_cons_of_not_mem (by simp [hL])]
      rw [hsingL]
    rw [hdD, hdL]
    norm_num [hL, hD]

/-- C8: with the leg count fixed at two and the calendar-day structure
of the two pairs equal, a same-league pair receives a strictly lower
correlation discount than a different-league pair. -/
theorem same_league_lower_discount
    (m1 m2 m3 m4 : Match) (s1 s2 s3 s4 : ValueSignal)
    (h1 : s1.mtch = some m1) (h2 : s2.mtch = some m2)
    (h3 : s3.mtch = some m3) (h4 : s4.mtch = some m4)
    (hsame : m1.league = m2.league)
    (hdiff : m3.league ≠ m4.league)
    (hday : (m1.commence_time.day = m2.commence_time.day) ↔
      (m3.commence_time.day = m4.commence_time.day)) :
    correlation_discount [s1, s2] < correlation_discount [s3, s4] := by
  rw [correlation_discount_pair s1 s2 m1 m2 h1 h2,
    correlation_discount_pair s3 s4 m3 m4 h3 h4,
    if_pos hsame, if_neg hdiff]
  by_cases hd : m1.commence_time.day = m2.commence_time.day
  · rw [if_pos hd, if_pos (hday.mp hd)]
    norm_num [betting_config, round4, roundEven]
  · rw [if_neg hd, if_neg ((not_iff_not.mpr hday).mp hd)]
    norm_num [betting_config, round4, roundEven]

/-- Witness for `same_league_lower_discount`: two same-day legs in
league "L" get discount 0.8294 < 0.9215, the discount of two same-day
legs in leagues "A" and "B". -/
theorem same_league_lower_discount_witness :
    correlation_discount
        [legSignal ⟨"f1", "L", "x", "y", ⟨1, 0⟩, []⟩,
         legSignal ⟨"f2", "L", "z", "w", ⟨1, 0⟩, []⟩] <
      correlation_discount
        [legSignal ⟨"f3", "A", "x", "y", ⟨1, 0⟩, []⟩,
         legSignal ⟨"f4", "B", "z", "w", ⟨1, 0⟩, []⟩] := by
  exact same_league_lower_discount _ _ _ _ _ _ _ _ rfl rfl rfl rfl rfl
    (by simp) (by simp)

/-!
## Value detection (`src/core/value_engine.py`, lines 206-338, 502-518)

`_analyze_match` is embedded at per-outcome granularity: the body of its
`for outcome_name, model_prob in model_probs.items()` loop becomes
`analyzeOutcome`, taking the match, the outcome name, the blended
probability, the model count, and the dictionary returned by the sharp
money detector (`SharpMoneyDetector.detect`; when the detector is absent
the source leaves `sharp_money = False`, which coincides with the lookup
below on every dictionary `detect` can return).
-/

/-- Python `str.lower()`, written as a structural map over the
characters (extensionally `String.toLower`) so that concrete instances
compute. -/
def pyLower (s : String) : String := ⟨s.data.map Char.toLower⟩

/-- Python `dict` lookup on a string-keyed association list. -/
def dictGet (d : List (String × ℚ)) (k : String) : Option ℚ :=
  (d.find? (fun kv => kv.1 = k)).map Prod.snd

/-- `ValueBettingEngine._find_best_odds`. -/
def find_best_odds (m : Match) (outcome : String) : ℚ × String :=
  m.bookmaker_odds.foldl
    (fun acc bo =>
      match dictGet bo.outcomes outcome with
      | some o => if acc.1 < o then (o, bo.bookmaker) else acc
      | none => acc)
    (0, "")

/-- `ValueBettingEngine._map_outcome`. -/
def map_outcome (name : String) : Option BetOutcome :=
  if pyLower name = "home" then some BetOutcome.home
  else if pyLower name = "away" then some BetOutcome.away
  else if pyLower name = "draw" then some BetOutcome.draw
  else if pyLower name = "over" then some BetOutcome.over
  else if pyLower name = "under" then some BetOutcome.under
  else none

/-- `ValueBettingEngine._check_sharp_bookmaker`: with an empty
`SHARP_BOOKMAKER` (the deployed configuration) the check is `False`;
otherwise the first price set whose bookmaker matches and quotes the
outcome decides `implied < model_prob * 1.02`. -/
def check_sharp_bookmaker (cfg : BettingConfig) (m : Match)
    (outcome : String) (model_prob : ℚ) : Bool :=
  if cfg.SHARP_BOOKMAKER = "" then false
  else go m.bookmaker_odds
where
  go : List BookmakerOdds → Bool
    | [] => false
    | bo :: rest =>
      if pyLower bo.bookmaker = pyLower cfg.SHARP_BOOKMAKER then
        match dictGet bo.outcomes outcome with
        | some o => decide (1 / o < model_prob * 1.02)
        | none => go rest
      else go rest

/-- A heterogeneous Python dict value (bool, string or number). -/
inductive SDVal where
  | b (v : Bool)
  | s (v : String)
  | q (v : ℚ)
deriving DecidableEq, Repr

/-- A string-keyed Python dict with heterogeneous values. -/
def SharpDict := List (String × SDVal)

/-- Python `d.get(k, default)` coerced to bool (Python truthiness). -/
def pyGetBool (d : SharpDict) (k : String) (dflt : Bool) : Bool :=
  match List.find? (fun kv => kv.1 = k) d with
  | some (_, SDVal.b v) => v
  | some (_, SDVal.s v) => decide (v ≠ "")
  | some (_, SDVal.q v) => decide (v ≠ 0)
  | none => dflt

/-- The two shapes of dictionary `SharpMoneyDetector.detect`
(`src/Stavki3/live_monitor.py`, the sibling layout of the
`core.live_monitor` module imported by the engine) can return: the
no-signal shape and the sharp-money-found shape. Neither contains an
`"is_sharp_money"` key. -/
def DetectShape (r : SharpDict) : Prop :=
  r = [("detected", SDVal.b false), ("confidence", SDVal.q 0)] ∨
  ∃ (direction details : String) (conf savg soavg dpct : ℚ),
    r = [("detected", SDVal.b true), ("direction", SDVal.s direction),
      ("confidence", SDVal.q conf), ("sharp_avg", SDVal.q savg),
      ("soft_avg", SDVal.q soavg), ("diff_pct", SDVal.q dpct),
      ("details", SDVal.s details)]

/-- `sharp_res.get("is_sharp_money", False)` is `False` on every
dictionary the detector returns: no return site carries that key. -/
theorem detect_no_sharp_money {r : SharpDict} (h : DetectShape r) :
    pyGetBool r "is_sharp_money" false = false := by
  rcases h with h | ⟨direction, details, conf, savg, soavg, dpct, h⟩ <;>
    subst h <;> simp [pyGetBool, List.find?]

/-- The per-outcome body of `ValueBettingEngine._analyze_match`
(filters, sharp checks, confidence assignment, signal construction),
with the configured `betting_config`. -/
def analyzeOutcome (m : Match) (outcome_name : String) (model_prob : ℚ)
    (model_count : ℕ) (sharp_res : SharpDict) : Option ValueSignal :=
  let best := find_best_odds m outcome_name
  if best.1 ≤ 1 then none
  else
    let edge := model_prob * best.1 - 1
    if edge < betting_config.MIN_VALUE_EDGE ∨
        betting_config.MAX_VALUE_EDGE < edge then none
    else if best.1 < betting_config.MIN_ODDS ∨
        betting_config.MAX_ODDS < best.1 then none
    else if m.bookmaker_odds.length < betting_config.MIN_BOOKMAKERS then
      none
    else
      let sharp_check :=
        check_sharp_bookmaker betting_config m outcome_name model_prob
      let sharp_money := pyGetBool sharp_res "is_sharp_money" false
      let confidence :=
        if 3 ≤ model_count ∧
            (betting_config.MIN_CONFIRMED_EDGE ≤ edge ∨ sharp_money) then
          ConfidenceLevel.high
        else if 2 ≤ model_count ∧ betting_config.MIN_VALUE_EDGE ≤ edge then
          ConfidenceLevel.medium
        else ConfidenceLevel.low
      match map_outcome outcome_name with
      | none => none
      | some outcome_enum =>
        let sharp_move := false
        some
          { mtch := some m
            outcome := outcome_enum
            model_probability := model_prob
            bookmaker_odds := best.1
            bookmaker_name := best.2
            edge := edge
            confidence_level := confidence
            model_count := model_count
            sharp_agrees := sharp_check || sharp_move
            status := SignalStatus.pending }

/-- With the deployed configuration (`SHARP_BOOKMAKER = ""`) the
reference cross-check always returns `False`. -/
theorem check_sharp_bookmaker_config (m : Match) (outcome : String)
    (model_prob : ℚ) :
    check_sharp_bookmaker betting_config m outcome model_prob = false := by
  simp [check_sharp_bookmaker, betting_config]

/-- C6: for every signal the per-outcome analysis emits, the confidence
tier is High iff at least 3 models agree and (the edge clears the
confirmed-edge threshold or the reference sharp-bookmaker cross-check
concurs); Medium iff not High, at least 2 models agree and the edge
clears the base threshold; otherwise Low. (With `SHARP_BOOKMAKER = ""`
the cross-check is constantly false; the `sharp_money` flag the code
disjoins instead is also false on every dictionary the detector can
return, since none carries an `"is_sharp_money"` key.) -/
theorem confidence_tier_spec
    (m : Match) (name : String) (prob : ℚ) (mc : ℕ) (r : SharpDict)
    (sig : ValueSignal)
    (hr : DetectShape r)
    (hsig : analyzeOutcome m name prob mc r = some sig) :
    (sig.confidence_level = ConfidenceLevel.high ↔
      3 ≤ mc ∧ (betting_config.MIN_CONFIRMED_EDGE ≤ sig.edge ∨
        check_sharp_bookmaker betting_config m name prob = true)) ∧
    (sig.confidence_level = ConfidenceLevel.medium ↔
      (¬(3 ≤ mc ∧ (betting_config.MIN_CONFIRMED_EDGE ≤ sig.edge ∨
          check_sharp_bookmaker betting_config m name prob = true)) ∧
        2 ≤ mc ∧ betting_config.MIN_VALUE_EDGE ≤ sig.edge)) ∧
    (sig.confidence_level = ConfidenceLevel.low ↔
      (¬(3 ≤ mc ∧ (betting_config.MIN_CONFIRMED_EDGE ≤ sig.edge ∨
          check_sharp_bookmaker betting_config m name prob = true)) ∧
        ¬(2 ≤ mc ∧ betting_config.MIN_VALUE_EDGE ≤ sig.edge))) := by
  have hsm := detect_no_sharp_money hr
  rw [check_sharp_bookmaker_config]
  simp only [Bool.false_eq_true, or_false]
  simp only [analyzeOutcome, hsm, Bool.false_eq_true, or_false] at hsig
  split_ifs at hsig with hb hedge hodds hbm hc1 hc2 <;>
    try exact Option.noConfusion hsig
  all_goals (
    rcases hmo : map_outcome name with _ | oe <;> rw [hmo] at hsig <;>
      try exact Option.noConfusion hsig
    injection hsig with hsig
    subst hsig)
  · exact ⟨by simp [hc1], by simp [hc1], by simp [hc1]⟩
  · exact ⟨by simp [hc1], by simp [hc1, hc2], by simp [hc1, hc2]⟩
  · exact ⟨by simp [hc1], by simp [hc1, hc2], by simp [hc1, hc2]⟩

/-- The match, detector output and emitted signal of the C6 witness
scenario: one bookmaker quoting home at 2.10, blended probability 0.55,
3 agreeing models. -/
def witnessMatch : Match :=
  ⟨"m1", "L", "H", "A", ⟨1, 0⟩, [⟨"fonbet", [("home", 21/10)]⟩]⟩

/-- The no-signal detector dictionary used by the C6 witness. -/
def witnessDetect : SharpDict :=
  [("detected", SDVal.b false), ("confidence", SDVal.q 0)]

/-- The signal the C6 witness scenario emits: edge 0.155, High tier. -/
def witnessSignal : ValueSignal :=
  ⟨some witnessMatch, BetOutcome.home, 11/20, 21/10, "fonbet", 31/200,
    ConfidenceLevel.high, 3, false, SignalStatus.pending⟩

/-- Witness for `confidence_tier_spec`: the concrete scenario emits the
High-tier signal, and the tier characterization holds for it. -/
theorem confidence_tier_spec_witness :
    analyzeOutcome witnessMatch "home" (11/20) 3 witnessDetect
      = some witnessSignal ∧
    (witnessSignal.confidence_level = ConfidenceLevel.high ↔
      3 ≤ 3 ∧ (betting_config.MIN_CONFIRMED_EDGE ≤ witnessSignal.edge ∨
        check_sharp_bookmaker betting_config witnessMatch "home" (11/20)
          = true)) := by
  have hmo : map_outcome "home" = some BetOutcome.home := by
    simp [map_outcome, pyLower]
  have hbo : find_best_odds witnessMatch "home" = (21/10, "fonbet") := by
    norm_num [find_best_odds, witnessMatch, dictGet, List.find?]
  have hcsb : check_sharp_bookmaker betting_config witnessMatch "home"
      (11/20) = false := check_sharp_bookmaker_config _ _ _
  have hlen : witnessMatch.bookmaker_odds.length = 1 := rfl
  have e1 : betting_config.MIN_VALUE_EDGE = 1/50 := by norm_num [betting_config]
  have e2 : betting_config.MIN_CONFIRMED_EDGE = 1/20 := by norm_num [betting_config]
  have e3 : betting_config.MAX_VALUE_EDGE = 3/5 := by norm_num [betting_config]
  have e4 : betting_config.MIN_ODDS = 21/20 := by norm_num [betting_config]
  have e5 : betting_config.MAX_ODDS = 20 := by norm_num [betting_config]
  have e6 : betting_config.MIN_BOOKMAKERS = 1 := rfl
  have heval : analyzeOutcome witnessMatch "home" (11/20) 3 witnessDetect
      = some witnessSignal := by
    norm_num [analyzeOutcome, hbo, hmo, witnessDetect, witnessSignal,
      pyGetBool, hcsb, hlen, e1, e2, e3, e4, e5, e6, List.find?]
  exact ⟨heval,
    (confidence_tier_spec witnessMatch "home" (11/20) 3 witnessDetect
      witnessSignal (Or.inl rfl) heval).1⟩

/-!
## Dixon-Coles scoring model (`src/Stavki3/prediction_models.py`)

The fitted parameter state holds, per team, the (attack, defence) pair:
`fit` populates the `attack` and `defence` dictionaries over the same
sorted team list, so a single association list models both (the source's
`predict_match` membership test consults only `attack`; a team present
in `attack` but missing from `defence` would raise `KeyError`, a state
`fit` never produces). The Poisson probability mass uses the real
exponential, so the matrix is real-valued.
-/

/-- The fields of `ModelConfig` read by `predict_match`. -/
structure ModelConfig where
  DIXON_COLES_MAX_GOALS : ℕ
deriving DecidableEq, Repr

/-- The `model_config` singleton of `src/config/settings.py`. -/
def model_config : ModelConfig := ⟨7⟩

/-- `DixonColesModel.tau`: the low-score correction factor. -/
def tau (x y : ℕ) (lam mu rho : ℚ) : ℚ :=
  if x = 0 ∧ y = 0 then 1 - lam * mu * rho
  else if x = 0 ∧ y = 1 then 1 + lam * rho
  else if x = 1 ∧ y = 0 then 1 + mu * rho
  else if x = 1 ∧ y = 1 then 1 - rho
  else 1

/-- `scipy.stats.poisson.pmf(k, lam)`: `exp(-lam) * lam^k / k!`. -/
noncomputable def poisson_pmf (k : ℕ) (lam : ℚ) : ℝ :=
  Real.exp (-(lam : ℝ)) * (lam : ℝ) ^ k / (Nat.factorial k : ℝ)

/-- The fitted state of a `DixonColesModel`. -/
structure DCModel where
  fitted : Bool
  params : List (String × ℚ × ℚ)
  gamma : ℚ
  rho : ℚ

/-- Looking a team up in the fitted parameter dictionaries. -/
def paramGet (model : DCModel) (team : String) : Option (ℚ × ℚ) :=
  (model.params.find? (fun kv => kv.1 = team)).map Prod.snd

/-- One cell of the score matrix before normalization:
`max(tau * pmf(x, lam) * pmf(y, mu), 0)`. -/
noncomputable def scoreCell (lam mu rho : ℚ) (x y : ℕ) : ℝ :=
  max ((tau x y lam mu rho : ℝ) * poisson_pmf x lam * poisson_pmf y mu) 0

/-- The `(max_goals+1) × (max_goals+1)` clamped score matrix. -/
noncomputable def scoreMatrixRaw (lam mu rho : ℚ) : List (List ℝ) :=
  (List.range (model_config.DIXON_COLES_MAX_GOALS + 1)).map (fun x =>
    (List.range (model_config.DIXON_COLES_MAX_GOALS + 1)).map (fun y =>
      scoreCell lam mu rho x y))

/-- `matrix.sum()` over a list-of-rows matrix. -/
noncomputable def matrixTotal (m : List (List ℝ)) : ℝ :=
  (m.map List.sum).sum

/-- The normalized score matrix (`matrix /= total` when the total is
positive). -/
noncomputable def scoreMatrixNorm (lam mu rho : ℚ) : List (List ℝ) :=
  let raw := scoreMatrixRaw lam mu rho
  let total := matrixTotal raw
  if 0 < total then raw.map (fun row => row.map (fun v => v / total))
  else raw

/-- `DixonColesModel.predict_match`, restricted to the score matrix (the
derived outcome probabilities are sums over its regions and are not
consulted by the verified claims). Returns `None` when unfitted, when
the parameter dictionary is missing (empty), or when either team is
absent from the fitted parameters. -/
noncomputable def predict_match (model : DCModel) (home away : String) :
    Option (List (List ℝ)) :=
  if model.fitted = false ∨ model.params = [] then none
  else
    match paramGet model home, paramGet model away with
    | some ph, some pa =>
      let lam := ph.1 * pa.2 * model.gamma
      let mu := pa.1 * ph.2
      some (scoreMatrixNorm lam mu model.rho)
    | _, _ => none

theorem sum_map_div (l : List ℝ) (c : ℝ) :
    (l.map (fun v => v / c)).sum = l.sum / c := by
  induction l with
  | nil => simp
  | cons a t ih =>
    simp only [List.map_cons, List.sum_cons, ih]
    ring

theorem matrixTotal_map_div (m : List (List ℝ)) (c : ℝ) :
    matrixTotal (m.map (fun row => row.map (fun v => v / c)))
      = matrixTotal m / c := by
  unfold matrixTotal
  rw [List.map_map]
  have : (List.map (List.sum ∘ fun row => row.map (fun v => v / c)) m)
      = (m.map List.sum).map (fun v => v / c) := by
    rw [List.map_map]
    apply List.map_congr_left
    intro row _
    exact sum_map_div row c
  rw [this, sum_map_div]

theorem poisson_pmf_pos {k : ℕ} {lam : ℚ} (h : 0 < lam) :
    0 < poisson_pmf k lam := by
  unfold poisson_pmf
  have hlam : (0 : ℝ) < (lam : ℝ) := by exact_mod_cast h
  have hexp : 0 < Real.exp (-(lam : ℝ)) := Real.exp_pos _
  have hpow : (0 : ℝ) < (lam : ℝ) ^ k := pow_pos hlam k
  have hfact : (0 : ℝ) < (Nat.factorial k : ℝ) := by
    exact_mod_cast Nat.factorial_pos k
  positivity

theorem scoreCell_nonneg (lam mu rho : ℚ) (x y : ℕ) :
    0 ≤ scoreCell lam mu rho x y := le_max_right _ _

/-- The (2,2) cell is strictly positive for positive expected goals:
its tau factor is 1 and the Poisson masses are positive. -/
theorem scoreCell_two_two_pos {lam mu rho : ℚ} (hl : 0 < lam)
    (hm : 0 < mu) : 0 < scoreCell lam mu rho 2 2 := by
  have htau : tau 2 2 lam mu rho = 1 := by norm_num [tau]
  unfold scoreCell
  rw [htau]
  apply lt_max_of_lt_left
  have h1 := @poisson_pmf_pos 2 _ hl
  have h2 := @poisson_pmf_pos 2 _ hm
  push_cast
  nlinarith

theorem matrixTotal_raw_pos {lam mu rho : ℚ} (hl : 0 < lam)
    (hm : 0 < mu) : 0 < matrixTotal (scoreMatrixRaw lam mu rho) := by
  have hrow_nonneg : ∀ row ∈ (scoreMatrixRaw lam mu rho).map List.sum,
      0 ≤ row := by
    intro rs hrs
    simp only [scoreMatrixRaw, List.map_map, List.mem_map] at hrs
    obtain ⟨x, _, rfl⟩ := hrs
    apply List.sum_nonneg
    intro v hv
    simp only [Function.comp, List.mem_map] at hv
    obtain ⟨y, _, rfl⟩ := hv
    exact scoreCell_nonneg lam mu rho x y
  have hcell : 0 < scoreCell lam mu rho 2 2 :=
    scoreCell_two_two_pos hl hm
  have hrow2 : scoreCell lam mu rho 2 2 ≤
      ((List.range (model_config.DIXON_COLES_MAX_GOALS + 1)).map
        (fun y => scoreCell lam mu rho 2 y)).sum := by
    apply List.single_le_sum
    · intro v hv
      simp only [List.mem_map] at hv
      obtain ⟨y, _, rfl⟩ := hv
      exact scoreCell_nonneg lam mu rho 2 y
    · exact List.mem_map_of_mem _ (by simp [model_config])
  have hmem : ((List.range (model_config.DIXON_COLES_MAX_GOALS + 1)).map
        (fun y => scoreCell lam mu rho 2 y)).sum ∈
      (scoreMatrixRaw lam mu rho).map List.sum := by
    simp only [scoreMatrixRaw, List.map_map]
    exact List.mem_map_of_mem _ (by simp [model_config])
  have := List.single_le_sum hrow_nonneg _ hmem
  unfold matrixTotal
  linarith

/-- C7: `predict_match` returns no result when the model is unfitted or
either team is absent from the fitted parameters; for two teams present
in a fitted model (whose parameters are positive, as the fit's bounds
guarantee) it returns a score matrix whose entries sum to 1 within
1e-6. -/
theorem predict_match_spec :
    (∀ (model : DCModel) (home away : String),
      model.fitted = false → predict_match model home away = none) ∧
    (∀ (model : DCModel) (home away : String),
      paramGet model home = none ∨ paramGet model away = none →
      predict_match model home away = none) ∧
    (∀ (model : DCModel) (home away : String) (ph pa : ℚ × ℚ) mat,
      paramGet model home = some ph → paramGet model away = some pa →
      0 < ph.1 * pa.2 * model.gamma → 0 < pa.1 * ph.2 →
      predict_match model home away = some mat →
      |matrixTotal mat - 1| ≤ 1e-6) := by
  refine ⟨?_, ?_, ?_⟩
  · intro model home away h
    unfold predict_match
    rw [if_pos (Or.inl h)]
  · intro model home away h
    unfold predict_match
    split_ifs with hf
    · rfl
    · rcases h with h | h
      · rw [h]
      · rw [h]
        cases paramGet model home <;> rfl
  · intro model home away ph pa mat hph hpa hlam hmu hpred
    unfold predict_match at hpred
    by_cases hf : model.fitted = false ∨ model.params = []
    · rw [if_pos hf] at hpred
      exact Option.noConfusion hpred
    · rw [if_neg hf, hph, hpa] at hpred
      injection hpred with hpred
      subst hpred
      have htot := @matrixTotal_raw_pos _ _ model.rho hlam hmu
      unfold scoreMatrixNorm
      rw [if_pos htot, matrixTotal_map_div,
        div_self (ne_of_gt htot)]
      norm_num

/-- The fitted two-team model of the C7 witness: attack/defence pairs
for teams "H" and "A", home advantage 5/4, rho -3/100. -/
def witnessModel : DCModel :=
  ⟨true, [("H", (3/2, 1)), ("A", (1, 1))], 5/4, -3/100⟩

/-- Witness for `predict_match_spec` at concrete models: an unfitted
model yields no result, a team absent from the fitted parameters yields
no result, and the fitted two-team prediction sums to 1 within 1e-6. -/
theorem predict_match_spec_witness :
    predict_match ⟨false, [], 1, 0⟩ "H" "A" = none ∧
    predict_match witnessModel "H" "X" = none ∧
    ∀ mat, predict_match witnessModel "H" "A" = some mat →
      |matrixTotal mat - 1| ≤ 1e-6 := by
  refine ⟨predict_match_spec.1 _ "H" "A" rfl,
    predict_match_spec.2.1 _ "H" "X" (Or.inr (by simp [paramGet,
      witnessModel, List.find?])), ?_⟩
  intro mat hmat
  exact predict_match_spec.2.2 witnessModel "H" "A" (3/2, 1) (1, 1) mat
    (by simp [paramGet, witnessModel, List.find?])
    (by simp [paramGet, witnessModel, List.find?])
    (by norm_num [witnessModel]) (by norm_num [witnessModel]) hmat

/-- Out-of-range-safe entry access used to state nonnegativity. -/
noncomputable def matrixEntry (m : List (List ℝ)) (x y : ℕ) : ℝ :=
  (m.getD x []).getD y 0

theorem scoreMatrixNorm_mem_nonneg (lam mu rho : ℚ)
    {row : List ℝ} (hrow : row ∈ scoreMatrixNorm lam mu rho)
    {v : ℝ} (hv : v ∈ row) : 0 ≤ v := by
  simp only [scoreMatrixNorm] at hrow
  split_ifs at hrow with htot
  · simp only [List.mem_map] at hrow
    obtain ⟨row0, hrow0, rfl⟩ := hrow
    simp only [List.mem_map] at hv
    obtain ⟨v0, hv0, rfl⟩ := hv
    have h0 : 0 ≤ v0 := by
      simp only [scoreMatrixRaw, List.mem_map] at hrow0
      obtain ⟨x, _, rfl⟩ := hrow0
      simp only [List.mem_map] at hv0
      obtain ⟨y, _, rfl⟩ := hv0
      exact scoreCell_nonneg lam mu rho x y
    exact div_nonneg h0 htot.le
  · simp only [scoreMatrixRaw, List.mem_map] at hrow
    obtain ⟨x, _, rfl⟩ := hrow
    simp only [List.mem_map] at hv
    obtain ⟨y, _, rfl⟩ := hv
    exact scoreCell_nonneg lam mu rho x y

/-- C10: every entry of the score matrix returned by `predict_match` is
non-negative — negative tau-corrected products are clamped to 0 before
normalization — even though the Dixon-Coles tau factor itself can be
negative on the low-score cells (e.g. `tau 0 0` at `lam = mu = 2`,
`rho = 2/5`). -/
theorem score_matrix_nonneg :
    (∀ (model : DCModel) (home away : String) mat,
      predict_match model home away = some mat →
      ∀ x y, 0 ≤ matrixEntry mat x y) ∧
    tau 0 0 2 2 (2/5) < 0 := by
  constructor
  · intro model home away mat hpred x y
    have hmem : ∀ row ∈ mat, ∀ v ∈ row, 0 ≤ v := by
      unfold predict_match at hpred
      by_cases hf : model.fitted = false ∨ model.params = []
      · rw [if_pos hf] at hpred
        exact Option.noConfusion hpred
      · rw [if_neg hf] at hpred
        rcases hh : paramGet model home with _ | ph <;> rw [hh] at hpred
        · exact Option.noConfusion hpred
        · rcases ha : paramGet model away with _ | pa <;> rw [ha] at hpred
          · exact Option.noConfusion hpred
          · injection hpred with hpred
            subst hpred
            intro row hrow v hv
            exact scoreMatrixNorm_mem_nonneg _ _ _ hrow hv
    unfold matrixEntry
    by_cases hxlen : x < mat.length
    · have hrowmem : mat.getD x [] ∈ mat := by
        rw [List.getD_eq_getElem mat [] hxlen]
        exact mat.getElem_mem hxlen
      by_cases hylen : y < (mat.getD x []).length
      · have hvmem : (mat.getD x []).getD y 0 ∈ mat.getD x [] := by
          rw [List.getD_eq_getElem _ 0 hylen]
          exact (mat.getD x []).getElem_mem hylen
        exact hmem _ hrowmem _ hvmem
      · rw [List.getD_eq_default _ 0 (le_of_not_lt hylen)]
    · rw [List.getD_eq_default _ [] (le_of_not_lt hxlen)]
      simp
  · norm_num [tau]

/-- Witness for `score_matrix_nonneg`: the (0,0) entry of the witness
model's prediction is non-negative. -/
theorem score_matrix_nonneg_witness :
    ∀ mat, predict_match witnessModel "H" "A" = some mat →
      0 ≤ matrixEntry mat 0 0 :=
  fun mat hmat => score_matrix_nonneg.1 witnessModel "H" "A" mat hmat 0 0

end Stavki
